import Mathlib

/-!
Verification of the Codefix-CLI core: the static analyzer
(`src/debugger/ast_scan.py`), the execution sandbox
(`src/debugger/sandbox.py`) and the patch applier
(`src/debugger/patcher.py`), shallowly embedded in Lean 4.

The analyzer works on Python abstract syntax trees; we embed the fragment
of the `ast` node language that the scanner inspects.  Nodes the scanner
never matches (`ast.Module` itself, `ast.arguments`, `ast.arg`,
`ast.alias`, `ast.withitem`, operator nodes, ...) carry no behavior in
`scan`, so they are represented only through their children where needed.
Line numbers are carried exactly where `scan` reads them (every statement,
exception handlers, `Name` and `Call` expressions).
-/

namespace Codefix

/-- Expression context of a `Name` or `Attribute` node: `ast.Load`,
`ast.Store` or `ast.Del`. -/
inductive Ctx where
  | load
  | store
  | del
deriving Repr, BEq, DecidableEq

/-- An `ast.alias` entry of an `import` / `from ... import` statement:
the imported `name` and the optional `asname`. -/
structure ImportAlias where
  name : String
  asname : Option String
deriving Repr, BEq, DecidableEq

mutual
/-- The expression fragment of the Python `ast` node language that
`ast_scan.py` inspects: `Name`, `BoolOp`, `Call`, `Attribute`, the three
mutable literals (`List`, `Dict`, `Set`), comprehension carriers and an
opaque `constant` for everything the scanner never matches. -/
inductive Expr where
  | name (id : String) (ctx : Ctx) (lineno : Nat)
  | constant
  | boolOp (values : List Expr)
  | call (func : Expr) (args : List Expr) (lineno : Nat)
  | attrAccess (value : Expr) (attr : String) (ctx : Ctx)
  | listLit (elts : List Expr)
  | dictLit
  | setLit (elts : List Expr)
  | listComp (elt : Expr) (generators : List Comprehension)

/-- An `ast.comprehension` clause (`for target in iter if ifs`). -/
inductive Comprehension where
  | mk (target : Expr) (iter : Expr) (ifs : List Expr)
end

mutual
/-- The statement fragment of the Python `ast` node language that
`ast_scan.py` inspects.  `functionDef` carries the positional defaults
(`args.defaults`) and keyword-only defaults (`args.kw_defaults`, which may
be `None` per slot) since rule 5 reads them. -/
inductive Stmt where
  | functionDef (name : String) (defaults : List Expr)
      (kwDefaults : List (Option Expr)) (body : List Stmt) (lineno : Nat)
  | asyncFunctionDef (name : String) (defaults : List Expr)
      (kwDefaults : List (Option Expr)) (body : List Stmt) (lineno : Nat)
  | ret (value : Option Expr) (lineno : Nat)
  | assign (targets : List Expr) (value : Expr) (lineno : Nat)
  | exprStmt (value : Expr) (lineno : Nat)
  | ifStmt (test : Expr) (body : List Stmt) (orelse : List Stmt) (lineno : Nat)
  | whileStmt (test : Expr) (body : List Stmt) (orelse : List Stmt) (lineno : Nat)
  | forStmt (target : Expr) (iter : Expr) (body : List Stmt)
      (orelse : List Stmt) (lineno : Nat)
  | withStmt (items : List Expr) (body : List Stmt) (lineno : Nat)
  | tryStmt (body : List Stmt) (handlers : List Handler) (orelse : List Stmt)
      (finalbody : List Stmt) (lineno : Nat)
  | assertStmt (test : Expr) (lineno : Nat)
  | importStmt (names : List ImportAlias) (lineno : Nat)
  | importFrom (module : String) (names : List ImportAlias) (lineno : Nat)
  | passStmt (lineno : Nat)

/-- An `ast.ExceptHandler` clause: optional caught `type` and body. -/
inductive Handler where
  | mk (type : Option Expr) (body : List Stmt) (lineno : Nat)
end

/-- A node of the walked tree, as `ast.walk` yields them (tagged union over
the node kinds the scanner's `isinstance` checks can match). -/
inductive Node where
  | stmt (s : Stmt)
  | expr (e : Expr)
  | handler (h : Handler)
  | comp (c : Comprehension)

mutual
/-- All nodes of an expression subtree, the root first, children in field
order.  `ast.walk` enumerates breadth-first; every property proved below is
a count or membership statement, insensitive to the enumeration order, so
the walk is embedded depth-first (which structural recursion gives
directly).  The node multiset is the same. -/
def exprWalk : Expr → List Node
  | .name id ctx l => [.expr (.name id ctx l)]
  | .constant => [.expr .constant]
  | .boolOp values => .expr (.boolOp values) :: exprListWalk values
  | .call func args l => .expr (.call func args l) :: (exprWalk func ++ exprListWalk args)
  | .attrAccess value attr ctx => .expr (.attrAccess value attr ctx) :: exprWalk value
  | .listLit elts => .expr (.listLit elts) :: exprListWalk elts
  | .dictLit => [.expr .dictLit]
  | .setLit elts => .expr (.setLit elts) :: exprListWalk elts
  | .listComp elt gens => .expr (.listComp elt gens) :: (exprWalk elt ++ compListWalk gens)

/-- Walk of a list of expressions, in order. -/
def exprListWalk : List Expr → List Node
  | [] => []
  | e :: es => exprWalk e ++ exprListWalk es

/-- Walk of one comprehension clause: the clause node, then target, iter
and the `if` conditions. -/
def compWalk : Comprehension → List Node
  | .mk target iter ifs => .comp (.mk target iter ifs) :: (exprWalk target ++ exprWalk iter ++ exprListWalk ifs)

/-- Walk of a list of comprehension clauses, in order. -/
def compListWalk : List Comprehension → List Node
  | [] => []
  | c :: cs => compWalk c ++ compListWalk cs
end

/-- Walk of an optional expression (an absent `kw_defaults` slot or return
value contributes nothing). -/
def optExprWalk : Option Expr → List Node
  | none => []
  | some e => exprWalk e

/-- Walk of a list of optional expressions, in order. -/
def optExprListWalk : List (Option Expr) → List Node
  | [] => []
  | o :: os => optExprWalk o ++ optExprListWalk os

mutual
/-- All nodes of a statement subtree, the root first, children in field
order (for a function: defaults, keyword defaults, then body). -/
def stmtWalk : Stmt → List Node
  | .functionDef name d kd body l =>
      .stmt (.functionDef name d kd body l) ::
        (exprListWalk d ++ optExprListWalk kd ++ stmtListWalk body)
  | .asyncFunctionDef name d kd body l =>
      .stmt (.asyncFunctionDef name d kd body l) ::
        (exprListWalk d ++ optExprListWalk kd ++ stmtListWalk body)
  | .ret value l => .stmt (.ret value l) :: optExprWalk value
  | .assign targets value l =>
      .stmt (.assign targets value l) :: (exprListWalk targets ++ exprWalk value)
  | .exprStmt value l => .stmt (.exprStmt value l) :: exprWalk value
  | .ifStmt test body orelse l =>
      .stmt (.ifStmt test body orelse l) ::
        (exprWalk test ++ stmtListWalk body ++ stmtListWalk orelse)
  | .whileStmt test body orelse l =>
      .stmt (.whileStmt test body orelse l) ::
        (exprWalk test ++ stmtListWalk body ++ stmtListWalk orelse)
  | .forStmt target iter body orelse l =>
      .stmt (.forStmt target iter body orelse l) ::
        (exprWalk target ++ exprWalk iter ++ stmtListWalk body ++ stmtListWalk orelse)
  | .withStmt items body l =>
      .stmt (.withStmt items body l) :: (exprListWalk items ++ stmtListWalk body)
  | .tryStmt body handlers orelse finalbody l =>
      .stmt (.tryStmt body handlers orelse finalbody l) ::
        (stmtListWalk body ++ handlerListWalk handlers ++
          stmtListWalk orelse ++ stmtListWalk finalbody)
  | .assertStmt test l => .stmt (.assertStmt test l) :: exprWalk test
  | .importStmt names l => [.stmt (.importStmt names l)]
  | .importFrom m names l => [.stmt (.importFrom m names l)]
  | .passStmt l => [.stmt (.passStmt l)]

/-- Walk of a list of statements, in order. -/
def stmtListWalk : List Stmt → List Node
  | [] => []
  | s :: ss => stmtWalk s ++ stmtListWalk ss

/-- Walk of one `except` handler: the handler node, its caught type, its
body. -/
def handlerWalk : Handler → List Node
  | .mk type body l => .handler (.mk type body l) :: (optExprWalk type ++ stmtListWalk body)

/-- Walk of a list of handlers, in order. -/
def handlerListWalk : List Handler → List Node
  | [] => []
  | h :: hs => handlerWalk h ++ handlerListWalk hs
end

/-- All nodes of a module (`ast.walk(tree)`); the `ast.Module` node itself
matches none of the scanner's `isinstance` checks and is omitted. -/
def treeWalk (tree : List Stmt) : List Node :=
  stmtListWalk tree

/-- One detected structural problem, as `scan` builds its issue dicts:
`kind`, `message` and the 1-based `lineno` (the source reads it with
`getattr(n, "lineno", None)`, hence the option). -/
structure Issue where
  kind : String
  message : String
  lineno : Option Nat
deriving Repr, BEq, DecidableEq

/-- The source line number of a statement (every statement node carries
one). -/
def Stmt.lineno : Stmt → Nat
  | .functionDef _ _ _ _ l => l
  | .asyncFunctionDef _ _ _ _ l => l
  | .ret _ l => l
  | .assign _ _ l => l
  | .exprStmt _ l => l
  | .ifStmt _ _ _ l => l
  | .whileStmt _ _ _ l => l
  | .forStmt _ _ _ _ l => l
  | .withStmt _ _ l => l
  | .tryStmt _ _ _ _ l => l
  | .assertStmt _ l => l
  | .importStmt _ l => l
  | .importFrom _ _ l => l
  | .passStmt l => l

/-- Whether a statement is an `ast.Return` node. -/
def isReturn : Stmt → Bool
  | .ret .. => true
  | _ => false

/-- The `(name, body)` of a statement that is an `ast.FunctionDef` or
`ast.AsyncFunctionDef`, as the scanner's
`isinstance(node, (ast.FunctionDef, ast.AsyncFunctionDef))` checks select
them. -/
def funcDef? : Stmt → Option (String × List Stmt)
  | .functionDef name _ _ body _ => some (name, body)
  | .asyncFunctionDef name _ _ body _ => some (name, body)
  | _ => none

/-- Rule 1 inner loop over one function's top-level body: the `returned`
flag is set by any `Return`; the first later statement that is not itself
a `Return` yields the single issue, then the loop breaks. -/
def unreachableInFunc (name : String) : List Stmt → Bool → List Issue
  | [], _ => []
  | n :: rest, returned =>
    if isReturn n then unreachableInFunc name rest true
    else if returned then
      [{ kind := "unreachable",
         message := "Unreachable code after return in '" ++ name ++ "'",
         lineno := some n.lineno }]
    else unreachableInFunc name rest returned

/-- Rule 1's loop body for one walked node: a function node runs the
inner loop over its body, every other node contributes nothing. -/
def unreachableNodeIssues (n : Node) : List Issue :=
  match n with
  | .stmt s =>
      match funcDef? s with
      | some (name, body) => unreachableInFunc name body false
      | none => []
  | _ => []

/-- Rule 1 of `scan`: unreachable code after `return`, per function found
anywhere in the walked tree. -/
def unreachableIssues (tree : List Stmt) : List Issue :=
  (treeWalk tree).flatMap unreachableNodeIssues

/-- The `isinstance(node.ctx, ast.Load)` test. -/
def isLoadCtx : Ctx → Bool
  | .load => true
  | _ => false

/-- One node's test inside `_is_used_in_tree`: a `Name` node with this
exact id in `Load` context. -/
def isLoadOf (name : String) (n : Node) : Bool :=
  match n with
  | .expr (.name id ctx _) => id == name && isLoadCtx ctx
  | _ => false

/-- The helper `_is_used_in_tree`: whether any `Name` node anywhere in the
tree has this exact id in `Load` context. -/
def _is_used_in_tree (name : String) (tree : List Stmt) : Bool :=
  (treeWalk tree).any (isLoadOf name)

/-- The message rule 2 formats for an unused import. -/
def unusedMsg (name : String) : String :=
  "Unused import: '" ++ name ++ "'"

/-- The effective bound name of an import alias: `alias.asname or
alias.name` (the parser never produces an empty `asname`, so Python's
falsiness test coincides with the `Option` default). -/
def ImportAlias.effName (a : ImportAlias) : String :=
  a.asname.getD a.name

/-- Rule 2's check of one alias of a plain `import` statement. -/
def importAliasIssues (tree : List Stmt) (lineno : Nat) (a : ImportAlias) : List Issue :=
  if _is_used_in_tree a.effName tree then []
  else [{ kind := "unused_import", message := unusedMsg a.effName,
          lineno := some lineno }]

/-- Rule 2's check of one alias of a `from ... import` statement: the
wildcard alias `*` is skipped. -/
def importFromAliasIssues (tree : List Stmt) (lineno : Nat) (a : ImportAlias) : List Issue :=
  if a.name == "*" then []
  else importAliasIssues tree lineno a

/-- Rule 2's loop body for one walked node. -/
def importNodeIssues (tree : List Stmt) (n : Node) : List Issue :=
  match n with
  | .stmt (.importStmt names lineno) => names.flatMap (importAliasIssues tree lineno)
  | .stmt (.importFrom _ names lineno) => names.flatMap (importFromAliasIssues tree lineno)
  | _ => []

/-- Rule 2 of `scan`: unused imports.  Every alias of every `Import` node
is checked; for `ImportFrom` the wildcard alias `*` is skipped. -/
def importIssues (tree : List Stmt) : List Issue :=
  (treeWalk tree).flatMap (importNodeIssues tree)

/-- Rule 3's loop body for one walked node: a handler with no declared
exception type is flagged. -/
def bareExceptNodeIssues (n : Node) : List Issue :=
  match n with
  | .handler (.mk none _ lineno) =>
      [{ kind := "bare_except",
         message := "Bare 'except:' catches all exceptions — use 'except Exception' or a specific type",
         lineno := some lineno }]
  | _ => []

/-- Rule 3 of `scan`: bare `except:` clauses (handlers whose `type` is
`None`). -/
def bareExceptIssues (tree : List Stmt) : List Issue :=
  (treeWalk tree).flatMap bareExceptNodeIssues

/-- The callee name rule 4 extracts: the id of a `Name` callee, the
attribute of an `Attribute` callee, nothing otherwise. -/
def calleeName : Expr → Option String
  | .name id _ _ => some id
  | .attrAccess _ attr _ => some attr
  | _ => none

/-- Rule 4's loop body for one walked node: a `Call` whose callee name is
`eval` or `exec` is flagged (`name in ("eval", "exec")` is false for a
`None` name). -/
def dangerousNodeIssues (n : Node) : List Issue :=
  match n with
  | .expr (.call func _ lineno) =>
      match calleeName func with
      | some nm =>
          if nm == "eval" || nm == "exec" then
            [{ kind := "dangerous_call",
               message := "Use of '" ++ nm ++ "()' is a security risk — avoid executing arbitrary strings",
               lineno := some lineno }]
          else []
      | none => []
  | _ => []

/-- Rule 4 of `scan`: calls whose callee name is `eval` or `exec`. -/
def dangerousIssues (tree : List Stmt) : List Issue :=
  (treeWalk tree).flatMap dangerousNodeIssues

/-- Whether an expression is one of the mutable literals of rule 5
(`ast.List`, `ast.Dict`, `ast.Set`). -/
def isMutableLiteral : Expr → Bool
  | .listLit .. => true
  | .dictLit => true
  | .setLit .. => true
  | _ => false

/-- Rule 5's check of one default slot of
`node.args.defaults + node.args.kw_defaults` (a `None` slot is skipped). -/
def mutableDefaultSlotIssues (name : String) (lineno : Nat)
    (default : Option Expr) : List Issue :=
  match default with
  | some e =>
      if isMutableLiteral e then
        [{ kind := "mutable_default",
           message := "Mutable default argument in '" ++ name ++ "' — use None and assign inside the function",
           lineno := some lineno }]
      else []
  | none => []

/-- Rule 5's loop body for one walked node. -/
def mutableDefaultNodeIssues (n : Node) : List Issue :=
  match n with
  | .stmt (.functionDef name d kd _ lineno) =>
      (d.map some ++ kd).flatMap (mutableDefaultSlotIssues name lineno)
  | .stmt (.asyncFunctionDef name d kd _ lineno) =>
      (d.map some ++ kd).flatMap (mutableDefaultSlotIssues name lineno)
  | _ => []

/-- Rule 5 of `scan`: mutable default arguments.  The source iterates
`node.args.defaults + node.args.kw_defaults` and skips `None` slots. -/
def mutableDefaultIssues (tree : List Stmt) : List Issue :=
  (treeWalk tree).flatMap mutableDefaultNodeIssues

/-- Per-node contribution of `_cyclomatic`'s loop body: 1 for each node of
`_BRANCH_NODES` (`If`, `For`, `While`, `ExceptHandler`, `With`, `Assert`,
`comprehension`), and `len(values) - 1` for a `BoolOp` (the parser always
builds `BoolOp` with at least two operands, so the Python subtraction
never goes negative, matching truncated `Nat` subtraction). -/
def branchWeight : Node → Nat
  | .stmt (.ifStmt ..) => 1
  | .stmt (.forStmt ..) => 1
  | .stmt (.whileStmt ..) => 1
  | .stmt (.withStmt ..) => 1
  | .stmt (.assertStmt ..) => 1
  | .handler _ => 1
  | .comp _ => 1
  | .expr (.boolOp values) => values.length - 1
  | _ => 0

/-- The `_cyclomatic` counter: `count = 1`, then one pass over
`ast.walk(func_node)` adding each node's branch weight. -/
def _cyclomatic (funcNode : Stmt) : Nat :=
  1 + ((stmtWalk funcNode).map branchWeight).sum

/-- The message rule 6 formats for a high-complexity function. -/
def highComplexityMsg (name : String) (cc : Nat) : String :=
  "'" ++ name ++ "' has high cyclomatic complexity (" ++ toString cc ++ ") — consider refactoring"

/-- Assignment `complexity[name] = cc` on the insertion-ordered dict the
source builds (an existing key keeps its position and takes the new value,
a new key is appended). -/
def dictInsert (m : List (String × Nat)) (k : String) (v : Nat) : List (String × Nat) :=
  if m.any fun p => p.1 == k then
    m.map fun p => if p.1 == k then (k, v) else p
  else m ++ [(k, v)]

/-- Loop body of rule 6 for one walked node: a function node computes
`cc = _cyclomatic(node)`, records `complexity[name] = cc` and appends a
`high_complexity` issue when `cc >= 10`; every other node is skipped. -/
def complexityStep (acc : List Issue × List (String × Nat)) (n : Node) :
    List Issue × List (String × Nat) :=
  match n with
  | .stmt s =>
      match funcDef? s with
      | some (name, _) =>
          let cc := _cyclomatic s
          ((if 10 ≤ cc then
              acc.1 ++ [{ kind := "high_complexity",
                          message := highComplexityMsg name cc,
                          lineno := some s.lineno }]
            else acc.1),
           dictInsert acc.2 name cc)
      | none => acc
  | _ => acc

/-- Rule 6 of `scan` in one pass over the walked tree. -/
def complexityPass (tree : List Stmt) : List Issue × List (String × Nat) :=
  (treeWalk tree).foldl complexityStep ([], [])

/-- State of rule 7's `UndefinedVarVisitor`: the flat set of names
assigned so far and the issues appended so far.  The visitor's
`current_scope` set is written but never read, so it is not modelled. -/
structure UVState where
  definedVars : List String
  issues : List Issue
deriving Repr

mutual
/-- The visitor's dispatch on one statement.  `visit_Assign` first adds
every `Name` target to `defined_vars`, then `generic_visit` descends into
the children in field order (targets, then value); every other statement
is just `generic_visit`ed. -/
def uvStmt (st : UVState) : Stmt → UVState
  | .functionDef _ d kd body _ =>
      uvStmtList (uvOptExprList (uvExprList st d) kd) body
  | .asyncFunctionDef _ d kd body _ =>
      uvStmtList (uvOptExprList (uvExprList st d) kd) body
  | .ret value _ => uvOptExpr st value
  | .assign targets value _ =>
      let st := { st with
        definedVars := st.definedVars ++ targets.filterMap fun t =>
          match t with
          | .name id _ _ => some id
          | _ => none }
      uvExpr (uvExprList st targets) value
  | .exprStmt value _ => uvExpr st value
  | .ifStmt test body orelse _ =>
      uvStmtList (uvStmtList (uvExpr st test) body) orelse
  | .whileStmt test body orelse _ =>
      uvStmtList (uvStmtList (uvExpr st test) body) orelse
  | .forStmt target iter body orelse _ =>
      uvStmtList (uvStmtList (uvExpr (uvExpr st target) iter) body) orelse
  | .withStmt items body _ => uvStmtList (uvExprList st items) body
  | .tryStmt body handlers orelse finalbody _ =>
      uvStmtList (uvStmtList (uvHandlerList (uvStmtList st body) handlers) orelse) finalbody
  | .assertStmt test _ => uvExpr st test
  | .importStmt _ _ => st
  | .importFrom _ _ _ => st
  | .passStmt _ => st

/-- The visitor over a list of statements, in order. -/
def uvStmtList (st : UVState) : List Stmt → UVState
  | [] => st
  | s :: ss => uvStmtList (uvStmt st s) ss

/-- The visitor's dispatch on one expression.  `visit_Name` flags a `Load`
of an id not yet in `defined_vars`; every other expression is
`generic_visit`ed in field order. -/
def uvExpr (st : UVState) : Expr → UVState
  | .name id ctx lineno =>
      match ctx with
      | .load =>
          if st.definedVars.contains id then st
          else { st with issues := st.issues ++
                  [{ kind := "undefined_var",
                     message := "Possibly undefined variable: '" ++ id ++ "'",
                     lineno := some lineno }] }
      | _ => st
  | .constant => st
  | .boolOp values => uvExprList st values
  | .call func args _ => uvExprList (uvExpr st func) args
  | .attrAccess value _ _ => uvExpr st value
  | .listLit elts => uvExprList st elts
  | .dictLit => st
  | .setLit elts => uvExprList st elts
  | .listComp elt gens => uvCompList (uvExpr st elt) gens

/-- The visitor over a list of expressions, in order. -/
def uvExprList (st : UVState) : List Expr → UVState
  | [] => st
  | e :: es => uvExprList (uvExpr st e) es

/-- The visitor over one comprehension clause (target, iter, ifs). -/
def uvComp (st : UVState) : Comprehension → UVState
  | .mk target iter ifs => uvExprList (uvExpr (uvExpr st target) iter) ifs

/-- The visitor over a list of comprehension clauses, in order. -/
def uvCompList (st : UVState) : List Comprehension → UVState
  | [] => st
  | c :: cs => uvCompList (uvComp st c) cs

/-- The visitor over an optional expression. -/
def uvOptExpr (st : UVState) : Option Expr → UVState
  | none => st
  | some e => uvExpr st e

/-- The visitor over a list of optional expressions, in order. -/
def uvOptExprList (st : UVState) : List (Option Expr) → UVState
  | [] => st
  | o :: os => uvOptExprList (uvOptExpr st o) os

/-- The visitor over one `except` handler (caught type, then body). -/
def uvHandler (st : UVState) : Handler → UVState
  | .mk type body _ => uvStmtList (uvOptExpr st type) body

/-- The visitor over a list of handlers, in order. -/
def uvHandlerList (st : UVState) : List Handler → UVState
  | [] => st
  | h :: hs => uvHandlerList (uvHandler st h) hs
end

/-- Rule 7 of `scan`: the issues the `UndefinedVarVisitor` has appended
after `visitor.visit(tree)` (visiting the module generic-visits its body
in order). -/
def undefinedVarIssues (tree : List Stmt) : List Issue :=
  (uvStmtList ⟨[], []⟩ tree).issues

/-- The `"syntax_error"` sub-dict of a failed scan: the parser's message
and line (`e.msg`, `e.lineno`). -/
structure SyntaxErrorInfo where
  msg : Option String
  lineno : Option Nat
deriving Repr, BEq, DecidableEq

/-- The dict `scan` returns.  The failure dict carries
`"syntax_error"` plus empty `issues` and `complexity`; the success dict
has no `"syntax_error"` key (here `none`). -/
structure ScanResult where
  ok : Bool
  syntaxError : Option SyntaxErrorInfo
  issues : List Issue
  complexity : List (String × Nat)
deriving Repr

/-- The body of `scan` after a successful parse: the seven rule sections
in source order, each its own pass over the same tree, the issues
concatenated in the order the source appends them. -/
def scanTree (tree : List Stmt) : ScanResult :=
  let cx := complexityPass tree
  { ok := true
    syntaxError := none
    issues := unreachableIssues tree ++ importIssues tree ++
      bareExceptIssues tree ++ dangerousIssues tree ++
      mutableDefaultIssues tree ++ cx.1 ++ undefinedVarIssues tree
    complexity := cx.2 }

/-- A Python exception as `scan`'s control flow distinguishes them:
`ast.parse` raises `SyntaxError` (the only class the `except` clause
catches) or something else — e.g. `ValueError` for a source string with a
NUL byte — and rule internals can raise arbitrary exceptions. -/
inductive PyExc where
  | syntaxError (msg : Option String) (lineno : Option Nat)
  | valueError (msg : String)
  | other (msg : String)
deriving Repr, BEq, DecidableEq

/-- `scan(code)` over the outcome of `ast.parse(code)` (the CPython parser
itself is not embedded; its outcome — a tree, a `SyntaxError`, or another
exception — is the input).  A `SyntaxError` is caught and turned into the
failure dict; any other parse exception propagates.  After a successful
parse the rule bodies of this model are total functions, so this
definition returns the success dict; `scanExc` below keeps the source's
exception routing around the rule sections explicit. -/
def scan (parsed : Except PyExc (List Stmt)) : Except PyExc ScanResult :=
  match parsed with
  | .error (.syntaxError m l) =>
      .ok { ok := false, syntaxError := some ⟨m, l⟩, issues := [], complexity := [] }
  | .error e => .error e
  | .ok tree => .ok (scanTree tree)

/-- The exception routing of `scan`, with each rule section abstracted as
a possibly-raising computation, exactly where the source does and does not
catch: the parse is guarded by `except SyntaxError` only; rule sections
1–6 run bare inside `scan`, so an exception raised in any of them
propagates to the caller; only rule 7 sits in `try ... except Exception:
pass`, and because the visitor appends into the shared `issues` list as it
goes, the issues it appended before raising (`rule7`'s first component)
stay in the result while the exception (its second component) is
discarded. -/
def scanExc (parsed : Except PyExc (List Stmt))
    (rule1 rule2 rule3 rule4 rule5 : List Stmt → Except PyExc (List Issue))
    (rule6 : List Stmt → Except PyExc (List Issue × List (String × Nat)))
    (rule7 : List Stmt → List Issue × Option PyExc) : Except PyExc ScanResult :=
  match parsed with
  | .error (.syntaxError m l) =>
      .ok { ok := false, syntaxError := some ⟨m, l⟩, issues := [], complexity := [] }
  | .error e => .error e
  | .ok tree => do
      let i1 ← rule1 tree
      let i2 ← rule2 tree
      let i3 ← rule3 tree
      let i4 ← rule4 tree
      let i5 ← rule5 tree
      let r6 ← rule6 tree
      let r7 := rule7 tree
      return { ok := true
               syntaxError := none
               issues := i1 ++ i2 ++ i3 ++ i4 ++ i5 ++ r6.1 ++ r7.1
               complexity := r6.2 }

/-! ## The execution sandbox (`src/debugger/sandbox.py`)

`run_in_sandbox` writes the code to a fresh temp file, launches it with
`subprocess.run([sys.executable, path], ..., timeout=timeout)` after
`preexec_fn=os.setsid` has put the child in a fresh session (its own
process group; on Windows, `CREATE_NEW_PROCESS_GROUP`), and returns one of
three dicts.  The model makes the environment explicit: the outcome of the
write, the outcome of the `subprocess.run` call, the pids of the child's
process group at the deadline, and whether `os.remove` succeeds.  Wall
clock is abstracted to whole values; `round(elapsed, 4)` is not modelled.

One fact of the called API is part of the embedding: on timeout,
CPython's `subprocess.run` kills only the immediate child (`process.kill()`
on the child's pid), reaps it and raises `TimeoutExpired` — it never
signals the process group, and `run_in_sandbox` contains no `os.killpg`.
So on the timeout path exactly the child pid leaves the group. -/

/-- The dict `run_in_sandbox` returns, fields optional exactly as the keys
are present: the success dict has `stdout`/`stderr`/`returncode`, the
timeout dict has `timeout: True`, the failure dict has `error`; all three
carry `ok` and `elapsed`. -/
structure SandboxResult where
  ok : Bool
  stdout : Option String
  stderr : Option String
  returncode : Option Int
  timeout : Option Bool
  error : Option String
  elapsed : Nat
deriving Repr, BEq, DecidableEq

/-- Outcome of the `subprocess.run` call: the child exits within the
deadline, the deadline elapses first (`TimeoutExpired`), or the call
raises some other exception (e.g. a launch failure). -/
inductive RunOutcome where
  | completes (stdout stderr : String) (returncode : Int) (elapsed : Nat)
  | timesOut
  | raises (msg : String)
deriving Repr, BEq, DecidableEq

/-- Outcome of writing the code to the temp file: `f.write(code)` can
itself raise (e.g. `UnicodeEncodeError` when the code string holds an
unpaired surrogate). -/
inductive WriteOutcome where
  | succeeds
  | raises (msg : String)
deriving Repr, BEq, DecidableEq

/-- What one `run_in_sandbox` call leaves behind: the returned dict (or
the exception that escaped the call), whether the temp file is still on
disk, and which pids of the child's process group are still running. -/
structure SandboxOutput where
  result : Except String SandboxResult
  tempFileRemains : Bool
  residualPids : List Nat
deriving Repr

/-- `run_in_sandbox(code, timeout)` over the explicit environment.
`mkstemp` creates the file before the `try` block; a write failure
therefore escapes the function with the file still on disk, since the
`finally` guards only the `subprocess.run` section.  Inside the `try`:
a completed run returns the success dict, `TimeoutExpired` (after
`subprocess.run` killed only the immediate child `childPid`) returns the
timeout dict with `elapsed = timeout`, any other exception returns the
error dict with `elapsed = 0`.  The `finally` attempts `os.remove(path)`
once on each of these paths and swallows a removal failure. -/
def run_in_sandbox (write : WriteOutcome) (outcome : RunOutcome)
    (childPid : Nat) (groupPids : List Nat) (removeSucceeds : Bool)
    (timeout : Nat) : SandboxOutput :=
  match write with
  | .raises msg =>
      { result := .error msg, tempFileRemains := true, residualPids := [] }
  | .succeeds =>
      let tempFileRemains := !removeSucceeds
      match outcome with
      | .completes out err rc elapsed =>
          let r : SandboxResult :=
            { ok := true, stdout := some out, stderr := some err,
              returncode := some rc, timeout := none, error := none,
              elapsed := elapsed }
          { result := .ok r
            tempFileRemains := tempFileRemains
            residualPids := groupPids.filter fun p => p != childPid }
      | .timesOut =>
          let r : SandboxResult :=
            { ok := false, stdout := none, stderr := none,
              returncode := none, timeout := some true, error := none,
              elapsed := timeout }
          { result := .ok r
            tempFileRemains := tempFileRemains
            residualPids := groupPids.filter fun p => p != childPid }
      | .raises msg =>
          let r : SandboxResult :=
            { ok := false, stdout := none, stderr := none,
              returncode := none, timeout := none, error := some msg,
              elapsed := 0 }
          { result := .ok r
            tempFileRemains := tempFileRemains
            residualPids := [] }

/-! ## The patcher (`src/debugger/patcher.py`) -/

/-- Python's `str.strip()` with no argument: remove leading and trailing
whitespace. -/
def strip (s : String) : String :=
  s.trim

/-- `apply_patch(original, diff_text)`: an empty (after stripping) diff
returns the original; the other branch — "for now, return original (safe
mode)" — also returns the original. -/
def apply_patch (original : String) (diff_text : String) : String :=
  if (strip diff_text).isEmpty then original
  else original

/-! ## Spec-side measurement definitions

The definitions below are not translations of source functions; they state,
in the spec's vocabulary, the quantities the claims measure (per-category
branch counts, import occurrences, the first statement after a `return`),
to be compared with what the source-side definitions compute. -/

/-- Spec side: a conditional (`ast.If`). -/
def isConditional : Node → Bool
  | .stmt (.ifStmt ..) => true
  | _ => false

/-- Spec side: a loop (`ast.For`, `ast.While`). -/
def isLoop : Node → Bool
  | .stmt (.forStmt ..) => true
  | .stmt (.whileStmt ..) => true
  | _ => false

/-- Spec side: an exception handler clause. -/
def isHandlerClause : Node → Bool
  | .handler _ => true
  | _ => false

/-- Spec side: a context manager (`with` statement). -/
def isContextManager : Node → Bool
  | .stmt (.withStmt ..) => true
  | _ => false

/-- Spec side: an assertion. -/
def isAssertion : Node → Bool
  | .stmt (.assertStmt ..) => true
  | _ => false

/-- Spec side: a comprehension clause. -/
def isComprehensionClause : Node → Bool
  | .comp _ => true
  | _ => false

/-- Spec side: the contribution of an N-operand boolean `and`/`or` chain,
`N - 1`. -/
def boolOpContribution : Node → Nat
  | .expr (.boolOp values) => values.length - 1
  | _ => 0

/-- Spec side: the total number of branch-like constructs in a list of
walked nodes — conditionals, loops, exception handlers, context managers,
assertions, comprehension clauses, and `N - 1` per N-operand boolean
chain. -/
def specBranchTotal (nodes : List Node) : Nat :=
  nodes.countP isConditional + nodes.countP isLoop +
    nodes.countP isHandlerClause + nodes.countP isContextManager +
    nodes.countP isAssertion + nodes.countP isComprehensionClause +
    (nodes.map boolOpContribution).sum

/-- Spec side: a function node whose cyclomatic score reaches the
`high_complexity` threshold of 10. -/
def isHighFuncNode : Node → Bool
  | .stmt s => (funcDef? s).isSome && decide (10 ≤ _cyclomatic s)
  | _ => false

/-- A minimal independent `if` branch (`if c: pass`), used to state the
"N independent if branches score N+1" property. -/
def simpleIf : Stmt :=
  .ifStmt (.name "c" .load 1) [.passStmt 1] [] 1

/-- Spec side: how many alias occurrences of one walked node bind this
name (wildcard `from`-aliases excluded, as rule 2 skips them). -/
def importNodeOccurrences (nm : String) (n : Node) : Nat :=
  match n with
  | .stmt (.importStmt names _) => names.countP fun a => a.effName == nm
  | .stmt (.importFrom _ names _) =>
      names.countP fun a => a.name != "*" && a.effName == nm
  | _ => 0

/-- Spec side: how many import-alias occurrences in the tree bind this
name. -/
def importOccurrences (nm : String) (tree : List Stmt) : Nat :=
  ((treeWalk tree).map (importNodeOccurrences nm)).sum

/-- One node's share of the parser invariant below. -/
def nodeNameNoDot (n : Node) : Bool :=
  match n with
  | .expr (.name id _ _) => !id.data.contains '.'
  | _ => true

/-- Parser invariant: a `Name` node's id is a single identifier and never
contains a dot (dotted module references parse as `Attribute` chains over
a `Name`). -/
def noDottedNames (tree : List Stmt) : Bool :=
  (treeWalk tree).all nodeNameNoDot

/-- Spec side: the statement rule 1 flags — the first statement that is
not itself a `return` and follows the function body's first `return`, if
any. -/
def firstUnreachableStmt (body : List Stmt) : Option Stmt :=
  ((body.dropWhile fun s => !isReturn s).drop 1).find? fun s => !isReturn s

/-- The syntax-failure shape of an `AnalysisResult`: `ok=false` with the
error payload present. -/
def syntaxFailureShape (r : ScanResult) : Prop :=
  r.ok = false ∧ r.syntaxError.isSome

/-- The success shape of an `AnalysisResult`: `ok=true` and no error
payload. -/
def successShape (r : ScanResult) : Prop :=
  r.ok = true ∧ r.syntaxError = none

/-! ## Theorems -/

/-- C8: for every original text and every diff text, `apply_patch` returns
the original text unchanged — the apply-patch path is a no-op stub. -/
theorem apply_patch_returns_original (original diff_text : String) :
    apply_patch original diff_text = original := by
  unfold apply_patch
  split <;> rfl

/-- C1: evaluation of the timeout path at the failing input.  The child
(pid 100) has spawned a grandchild (pid 101) into its process group and
then outlives the 1-second deadline.  `run_in_sandbox` does return the
timeout shape — `ok=false`, `timeout=true`, `elapsed` equal to the
timeout, no output captured — but `subprocess.run`'s timeout handling
kills only the immediate child (`process.kill()` sends `SIGKILL` to the
child's pid alone), and `run_in_sandbox` never calls `os.killpg`, so the
grandchild remains running: the process group is not terminated. -/
theorem run_in_sandbox_timeout_leaves_group_member :
    (run_in_sandbox .succeeds .timesOut 100 [100, 101] true 1).result =
      .ok { ok := false, stdout := none, stderr := none, returncode := none,
            timeout := some true, error := none, elapsed := 1 } ∧
    (run_in_sandbox .succeeds .timesOut 100 [100, 101] true 1).residualPids = [101] :=
  ⟨rfl, rfl⟩

/-- C4, counterexample: `mkstemp` and the write of the code happen before
the `try`/`finally` block, so when `f.write(code)` raises — concretely,
`run_in_sandbox("x = '\ud800'")` raises `UnicodeEncodeError`, since a lone
surrogate cannot be encoded to UTF-8 — the exception escapes
`run_in_sandbox` and the temporary file is left on disk: not every exit
path deletes it. -/
theorem run_in_sandbox_write_failure_leaks_temp_file :
    (run_in_sandbox (.raises "UnicodeEncodeError: surrogates not allowed")
        (.completes "" "" 0 0) 100 [100] true 5).result =
      .error "UnicodeEncodeError: surrogates not allowed" ∧
    (run_in_sandbox (.raises "UnicodeEncodeError: surrogates not allowed")
        (.completes "" "" 0 0) 100 [100] true 5).tempFileRemains = true :=
  ⟨rfl, rfl⟩

/-- C4, amended: on every exit path that reaches the `try` block — normal
exit, timeout, launch failure or any other exception raised inside the
`try` — the `finally` attempts to delete the temporary file before the
result is returned (the file remains exactly when the removal fails), and
a removal failure is swallowed: the returned result is the same as when
removal succeeds. -/
theorem run_in_sandbox_cleanup_after_write (outcome : RunOutcome)
    (childPid : Nat) (groupPids : List Nat) (removeSucceeds : Bool)
    (timeout : Nat) :
    (run_in_sandbox .succeeds outcome childPid groupPids removeSucceeds timeout).result =
      (run_in_sandbox .succeeds outcome childPid groupPids true timeout).result ∧
    (run_in_sandbox .succeeds outcome childPid groupPids removeSucceeds timeout).tempFileRemains =
      !removeSucceeds := by
  cases outcome <;> exact ⟨rfl, rfl⟩

/-- C2, counterexample: `scan` does let exceptions escape.  First, the
parse is guarded by `except SyntaxError` only, and `ast.parse` can raise
a non-`SyntaxError` — concretely, `scan("x = '\ud800'")` raises
`UnicodeEncodeError` (a `ValueError`), which propagates to the caller
instead of producing the syntax-error shape.  Second, rule sections 1–6
run bare inside `scan` (only rule 7 sits in `try/except`), so an internal
error in rule 1 propagates instead of degrading to "no findings". -/
theorem scanExc_exception_escapes :
    scanExc (.error (.valueError "surrogates not allowed"))
        (fun _ => .ok []) (fun _ => .ok []) (fun _ => .ok []) (fun _ => .ok [])
        (fun _ => .ok []) (fun _ => .ok ([], [])) (fun _ => ([], none)) =
      .error (.valueError "surrogates not allowed") ∧
    scanExc (.ok []) (fun _ => .error (.other "rule 1 internal error"))
        (fun _ => .ok []) (fun _ => .ok []) (fun _ => .ok [])
        (fun _ => .ok []) (fun _ => .ok ([], [])) (fun _ => ([], none)) =
      .error (.other "rule 1 internal error") :=
  ⟨rfl, rfl⟩

/-- C2, amended: a parse failure that raises `SyntaxError` returns the
syntax-error shape; of the rule sections only rule 7 (the
undefined-variable heuristic) is isolated, and an internal error there is
swallowed with the findings it appended before raising kept and the scan
still returning `ok=true` with all other rules' findings; with the
sections instantiated to the actual (total) rule bodies the skeleton is
exactly `scan`. -/
theorem scanExc_isolation :
    (∀ (m : Option String) (l : Option Nat) r1 r2 r3 r4 r5 r6 r7,
      scanExc (.error (.syntaxError m l)) r1 r2 r3 r4 r5 r6 r7 =
        .ok { ok := false, syntaxError := some ⟨m, l⟩, issues := [], complexity := [] }) ∧
    (∀ (tree : List Stmt) (p7 : List Issue) (e7 : Option PyExc),
      scanExc (.ok tree)
          (fun t => .ok (unreachableIssues t)) (fun t => .ok (importIssues t))
          (fun t => .ok (bareExceptIssues t)) (fun t => .ok (dangerousIssues t))
          (fun t => .ok (mutableDefaultIssues t)) (fun t => .ok (complexityPass t))
          (fun _ => (p7, e7)) =
        .ok { ok := true, syntaxError := none,
              issues := unreachableIssues tree ++ importIssues tree ++
                bareExceptIssues tree ++ dangerousIssues tree ++
                mutableDefaultIssues tree ++ (complexityPass tree).1 ++ p7,
              complexity := (complexityPass tree).2 }) ∧
    (∀ parsed : Except PyExc (List Stmt),
      scanExc parsed
          (fun t => .ok (unreachableIssues t)) (fun t => .ok (importIssues t))
          (fun t => .ok (bareExceptIssues t)) (fun t => .ok (dangerousIssues t))
          (fun t => .ok (mutableDefaultIssues t)) (fun t => .ok (complexityPass t))
          (fun t => (undefinedVarIssues t, none)) =
        scan parsed) := by
  refine ⟨fun m l r1 r2 r3 r4 r5 r6 r7 => rfl, fun tree p7 e7 => rfl, fun parsed => ?_⟩
  cases parsed with
  | ok tree => rfl
  | error e => cases e <;> rfl

/-- C3: every `AnalysisResult` that `scan` returns has exactly one of the
two shapes: the syntax-failure shape (`ok=false` with the error payload)
or the success shape (`ok=true` with issues and complexity), never both. -/
theorem scan_result_shape_exclusive (parsed : Except PyExc (List Stmt))
    (r : ScanResult) (h : scan parsed = .ok r) :
    (syntaxFailureShape r ∧ ¬ successShape r) ∨
      (successShape r ∧ ¬ syntaxFailureShape r) := by
  cases parsed with
  | ok tree =>
      right
      cases h
      exact ⟨⟨rfl, rfl⟩, fun hf => by simp [syntaxFailureShape, scanTree] at hf⟩
  | error e =>
      cases e with
      | syntaxError m l =>
          left
          cases h
          exact ⟨⟨rfl, rfl⟩, fun hs => by simp [successShape] at hs⟩
      | valueError m => simp [scan] at h
      | other m => simp [scan] at h

/-- C3, witness: the exclusivity at the concrete parse outcome of the
empty module. -/
theorem scan_result_shape_exclusive_witness :
    (syntaxFailureShape (scanTree []) ∧ ¬ successShape (scanTree [])) ∨
      (successShape (scanTree []) ∧ ¬ syntaxFailureShape (scanTree [])) :=
  scan_result_shape_exclusive (.ok []) (scanTree []) rfl

/-- With the `returned` flag already set, rule 1's loop flags the first
statement of the remaining tail that is not itself a `return`. -/
theorem unreachableInFunc_flag_true (name : String) (body : List Stmt) :
    unreachableInFunc name body true =
      match body.find? fun s => !isReturn s with
      | some s => [{ kind := "unreachable",
                     message := "Unreachable code after return in '" ++ name ++ "'",
                     lineno := some s.lineno }]
      | none => [] := by
  induction body with
  | nil => rfl
  | cons n rest ih =>
      cases hn : isReturn n with
      | true => simpa [unreachableInFunc, hn, List.find?_cons] using ih
      | false => simp [unreachableInFunc, hn, List.find?_cons]

/-- Rule 1's loop over a function body equals the spec-side selection: it
produces exactly the issue for the first non-`return` statement that
follows the body's first `return`, or nothing. -/
theorem unreachableInFunc_eq_first (name : String) (body : List Stmt) :
    unreachableInFunc name body false =
      match firstUnreachableStmt body with
      | some s => [{ kind := "unreachable",
                     message := "Unreachable code after return in '" ++ name ++ "'",
                     lineno := some s.lineno }]
      | none => [] := by
  induction body with
  | nil => rfl
  | cons n rest ih =>
      cases hn : isReturn n with
      | true =>
          simpa [unreachableInFunc, hn, firstUnreachableStmt, List.dropWhile_cons]
            using unreachableInFunc_flag_true name rest
      | false =>
          simpa [unreachableInFunc, hn, firstUnreachableStmt, List.dropWhile_cons]
            using ih

/-- C7, counterexample: a function whose top-level body is `return`
followed by another `return` does contain a return followed by a sibling
statement, yet `scan` produces no `unreachable` issue at all: the loop's
`elif` arm lets a later `return` re-set the flag instead of being
flagged. -/
theorem unreachable_counterexample :
    isReturn (Stmt.ret none 3) = true ∧
    (scanTree [.functionDef "f" [] [] [.ret none 2, .ret none 3] 1]).issues.countP
      (fun i => i.kind == "unreachable") = 0 :=
  ⟨rfl, rfl⟩

/-- C7, amended: rule 1 flags exactly the first non-`return` statement
following the body's first `return` (nothing when every post-`return`
sibling is itself a `return`), hence at most one issue per function and
no scanning past the flagged statement; concretely, a function body
`return; pass; pass` yields exactly one `unreachable` issue, referencing
the first `pass`. -/
theorem unreachable_flags_first_nonreturn :
    (∀ (name : String) (body : List Stmt),
      unreachableInFunc name body false =
        match firstUnreachableStmt body with
        | some s => [{ kind := "unreachable",
                       message := "Unreachable code after return in '" ++ name ++ "'",
                       lineno := some s.lineno }]
        | none => []) ∧
    (∀ (name : String) (body : List Stmt),
      (unreachableInFunc name body false).length ≤ 1) ∧
    (scanTree [.functionDef "f" [] [] [.ret none 2, .passStmt 3, .passStmt 4] 1]).issues.filter
        (fun i => i.kind == "unreachable") =
      [{ kind := "unreachable",
         message := "Unreachable code after return in 'f'",
         lineno := some 3 }] := by
  refine ⟨unreachableInFunc_eq_first, fun name body => ?_, rfl⟩
  rw [unreachableInFunc_eq_first]
  cases firstUnreachableStmt body <;> simp

/-- The per-node weight of `_cyclomatic`'s loop splits into the spec's
per-category contributions. -/
theorem branchWeight_split (n : Node) :
    branchWeight n =
      (if isConditional n then 1 else 0) + (if isLoop n then 1 else 0) +
        (if isHandlerClause n then 1 else 0) + (if isContextManager n then 1 else 0) +
        (if isAssertion n then 1 else 0) + (if isComprehensionClause n then 1 else 0) +
        boolOpContribution n := by
  cases n with
  | stmt s =>
      cases s <;>
        simp [branchWeight, isConditional, isLoop, isHandlerClause,
          isContextManager, isAssertion, isComprehensionClause, boolOpContribution]
  | expr e =>
      cases e <;>
        simp [branchWeight, isConditional, isLoop, isHandlerClause,
          isContextManager, isAssertion, isComprehensionClause, boolOpContribution]
  | handler h =>
      simp [branchWeight, isConditional, isLoop, isHandlerClause,
        isContextManager, isAssertion, isComprehensionClause, boolOpContribution]
  | comp c =>
      simp [branchWeight, isConditional, isLoop, isHandlerClause,
        isContextManager, isAssertion, isComprehensionClause, boolOpContribution]

/-- Summing `_cyclomatic`'s per-node weights over any node list gives the
spec-side branch total of that list. -/
theorem map_branchWeight_sum (nodes : List Node) :
    (nodes.map branchWeight).sum = specBranchTotal nodes := by
  induction nodes with
  | nil => rfl
  | cons n l ih =>
      simp only [List.map_cons, List.sum_cons, specBranchTotal, List.countP_cons,
        List.map_cons] at *
      rw [branchWeight_split n]
      omega

/-- One rule-6 step grows the issue list by one exactly on a function node
whose score reaches 10. -/
theorem complexityStep_fst_length (acc : List Issue × List (String × Nat)) (n : Node) :
    (complexityStep acc n).1.length = acc.1.length + (if isHighFuncNode n then 1 else 0) := by
  cases n with
  | stmt s =>
      cases hf : funcDef? s with
      | some nb =>
          by_cases hcc : 10 ≤ _cyclomatic s <;>
            simp [complexityStep, hf, isHighFuncNode, hcc]
      | none => simp [complexityStep, hf, isHighFuncNode]
  | expr e => rfl
  | handler h => rfl
  | comp c => rfl

/-- Folding rule 6 over a node list emits one `high_complexity` issue per
function node at or over the threshold. -/
theorem foldl_complexityStep_length (nodes : List Node)
    (acc : List Issue × List (String × Nat)) :
    (nodes.foldl complexityStep acc).1.length =
      acc.1.length + nodes.countP isHighFuncNode := by
  induction nodes generalizing acc with
  | nil => simp
  | cons n l ih =>
      rw [List.foldl_cons, ih, complexityStep_fst_length, List.countP_cons]
      omega

/-- A dict entry after `dictInsert` is either an old entry or the inserted
pair. -/
theorem mem_dictInsert (m : List (String × Nat)) (k : String) (v : Nat)
    (e : String × Nat) (he : e ∈ dictInsert m k v) : e ∈ m ∨ e = (k, v) := by
  unfold dictInsert at he
  split at he
  · obtain ⟨x, hx, hfx⟩ := List.mem_map.mp he
    by_cases hk : (x.1 == k) = true
    · rw [if_pos hk] at hfx
      exact .inr hfx.symm
    · rw [if_neg hk] at hfx
      exact .inl (hfx ▸ hx)
  · rcases List.mem_append.mp he with h | h
    · exact .inl h
    · exact .inr (List.mem_singleton.mp h)

/-- Every entry of rule 6's dict after a fold comes from the starting dict
or records `_cyclomatic` of a function node of the folded list. -/
theorem foldl_complexityStep_entries (nodes : List Node)
    (acc : List Issue × List (String × Nat)) (nm : String) (cc : Nat)
    (he : (nm, cc) ∈ (nodes.foldl complexityStep acc).2) :
    (nm, cc) ∈ acc.2 ∨
      ∃ s, Node.stmt s ∈ nodes ∧
        (∃ body, funcDef? s = some (nm, body)) ∧ cc = _cyclomatic s := by
  induction nodes generalizing acc with
  | nil => exact .inl he
  | cons n l ih =>
      rw [List.foldl_cons] at he
      rcases ih _ he with hacc | ⟨s, hs, hb, hcc⟩
      · cases n with
        | stmt s =>
            cases hf : funcDef? s with
            | some nb =>
                simp only [complexityStep, hf] at hacc
                rcases mem_dictInsert _ _ _ _ hacc with h | h
                · exact .inl h
                · injection h with h1 h2
                  refine .inr ⟨s, List.mem_cons_self _ _, ⟨nb.2, ?_⟩, h2⟩
                  rw [hf]
                  subst h1
                  rfl
            | none => exact .inl (by simpa [complexityStep, hf] using hacc)
        | expr e => exact .inl hacc
        | handler h => exact .inl hacc
        | comp c => exact .inl hacc
      · exact .inr ⟨s, List.mem_cons_of_mem _ hs, hb, hcc⟩

/-- The walk of `n` copies of the minimal `if` branch carries total branch
weight `n`. -/
theorem replicate_simpleIf_weight (n : Nat) :
    ((stmtListWalk (List.replicate n simpleIf)).map branchWeight).sum = n := by
  induction n with
  | zero => rfl
  | succ k ih =>
      rw [List.replicate_succ]
      show ((stmtWalk simpleIf ++ stmtListWalk (List.replicate k simpleIf)).map
        branchWeight).sum = k + 1
      rw [List.map_append, List.sum_append, ih]
      have h1 : ((stmtWalk simpleIf).map branchWeight).sum = 1 := rfl
      omega

/-- C5: for every function, `_cyclomatic` equals 1 plus the number of
branch-like constructs of its subtree — conditionals, loops, exception
handlers, context managers, assertions, comprehension clauses, `N-1` per
N-operand boolean chain; a subtree with zero branch-like constructs scores
exactly 1; a body of `n` independent `if` branches scores `n + 1`; rule 6
emits exactly one `high_complexity` issue per function node with score at
least 10, and every complexity entry `scan` reports is the `_cyclomatic`
score of a function node of the tree. -/
theorem cyclomatic_is_one_plus_branches :
    (∀ s : Stmt, _cyclomatic s = 1 + specBranchTotal (stmtWalk s)) ∧
    (∀ s : Stmt, specBranchTotal (stmtWalk s) = 0 → _cyclomatic s = 1) ∧
    (∀ (name : String) (lineno n : Nat),
      _cyclomatic (.functionDef name [] [] (List.replicate n simpleIf) lineno) = n + 1) ∧
    (∀ tree : List Stmt,
      (complexityPass tree).1.length = (treeWalk tree).countP isHighFuncNode) ∧
    (∀ (tree : List Stmt) (nm : String) (cc : Nat),
      (nm, cc) ∈ (complexityPass tree).2 →
        ∃ s, Node.stmt s ∈ treeWalk tree ∧
          (∃ body, funcDef? s = some (nm, body)) ∧ cc = _cyclomatic s) := by
  refine ⟨fun s => ?_, fun s h => ?_, fun name lineno n => ?_, fun tree => ?_,
    fun tree nm cc he => ?_⟩
  · rw [_cyclomatic, map_branchWeight_sum]
  · rw [_cyclomatic, map_branchWeight_sum, h]
  · show 1 + ((stmtWalk (.functionDef name [] [] (List.replicate n simpleIf) lineno)).map
      branchWeight).sum = n + 1
    rw [stmtWalk]
    simp only [List.map_cons, List.sum_cons, exprListWalk, optExprListWalk,
      List.nil_append, List.map_append, List.sum_append]
    rw [replicate_simpleIf_weight]
    have hb : branchWeight
      (Node.stmt (Stmt.functionDef name [] [] (List.replicate n simpleIf) lineno)) = 0 := rfl
    omega
  · simpa using foldl_complexityStep_length (treeWalk tree) ([], [])
  · rcases foldl_complexityStep_entries (treeWalk tree) ([], []) nm cc he with h | h
    · simp at h
    · exact h

/-- C5, witness: a branch-free function scores exactly 1, and the reported
entry `("f", 2)` of a one-`if` function is the `_cyclomatic` score of a
function node of its tree. -/
theorem cyclomatic_is_one_plus_branches_witness :
    _cyclomatic (Stmt.functionDef "f" [] [] [] 1) = 1 ∧
    ∃ s, Node.stmt s ∈ treeWalk [.functionDef "f" [] []
          [.ifStmt (.name "c" .load 2) [.passStmt 3] [] 2] 1] ∧
        (∃ body, funcDef? s = some ("f", body)) ∧ 2 = _cyclomatic s := by
  refine ⟨cyclomatic_is_one_plus_branches.2.1 (Stmt.functionDef "f" [] [] [] 1) rfl, ?_⟩
  refine cyclomatic_is_one_plus_branches.2.2.2.2
    [.functionDef "f" [] [] [.ifStmt (.name "c" .load 2) [.passStmt 3] [] 2] 1]
    "f" 2 ?_
  have h : (complexityPass [.functionDef "f" [] []
      [.ifStmt (.name "c" .load 2) [.passStmt 3] [] 2] 1]).2 = [("f", 2)] := rfl
  rw [h]
  exact List.mem_singleton.mpr rfl

/-- The statement-list walk distributes over list append. -/
theorem stmtListWalk_append (xs ys : List Stmt) :
    stmtListWalk (xs ++ ys) = stmtListWalk xs ++ stmtListWalk ys := by
  induction xs with
  | nil => rfl
  | cons s ss ih => simp [stmtListWalk, ih]

/-- C9: `_cyclomatic` walks the entire subtree of a function, nested
function definitions included, so removing a nested statement `g` from an
enclosing function's body lowers the enclosing score by exactly
`_cyclomatic g - 1` — every branch-like construct inside a nested
function is counted both in the nested function's own score and again in
each enclosing function's score.  Concretely, for `f` containing only a
nested `g` containing one `if`, `scan` reports complexity 2 for both `f`
and `g`: the single `if` is counted twice. -/
theorem cyclomatic_counts_nested_twice :
    (∀ (fname : String) (d : List Expr) (kd : List (Option Expr))
        (pre post : List Stmt) (lineno : Nat) (g : Stmt),
      _cyclomatic (.functionDef fname d kd (pre ++ g :: post) lineno) + 1 =
        _cyclomatic (.functionDef fname d kd (pre ++ post) lineno) + _cyclomatic g) ∧
    (scanTree [.functionDef "f" [] []
        [.functionDef "g" [] [] [.ifStmt (.name "c" .load 3) [.passStmt 4] [] 3] 2]
        1]).complexity = [("f", 2), ("g", 2)] := by
  refine ⟨fun fname d kd pre post lineno g => ?_, rfl⟩
  have h1 : branchWeight
    (Node.stmt (Stmt.functionDef fname d kd (pre ++ g :: post) lineno)) = 0 := rfl
  have h2 : branchWeight
    (Node.stmt (Stmt.functionDef fname d kd (pre ++ post) lineno)) = 0 := rfl
  simp only [_cyclomatic, stmtWalk, List.map_cons, List.sum_cons,
    stmtListWalk_append, stmtListWalk, List.map_append, List.sum_append]
  omega

/-- Counting matches over a flat-mapped list, import node by import
node. -/
theorem countP_flatMap {α β : Type} (l : List α) (f : α → List β) (p : β → Bool) :
    (l.flatMap f).countP p = (l.map fun x => (f x).countP p).sum := by
  induction l with
  | nil => rfl
  | cons a t ih => simp [List.flatMap_cons, List.countP_append, ih]

/-- Strings with equal character data are equal. -/
theorem String.data_inj {s t : String} (h : s.data = t.data) : s = t := by
  cases s
  cases t
  exact congrArg String.mk h

/-- The unused-import message determines the imported name. -/
theorem unusedMsg_inj {a b : String} (h : unusedMsg a = unusedMsg b) : a = b := by
  unfold unusedMsg at h
  have hd := congrArg String.data h
  simp only [String.data_append, List.append_assoc] at hd
  exact String.data_inj (List.append_cancel_right (List.append_cancel_left hd))

/-- The boolean comparison of two unused-import messages coincides with
that of the names. -/
theorem unusedMsg_beq (a b : String) : (unusedMsg a == unusedMsg b) = (a == b) := by
  cases hab : a == b with
  | true => rw [eq_of_beq hab]; exact beq_self_eq_true _
  | false =>
      cases hm : unusedMsg a == unusedMsg b with
      | true => rw [unusedMsg_inj (eq_of_beq hm), beq_self_eq_true] at hab; cases hab
      | false => rfl

/-- Every issue the rule-1 inner loop emits has kind `unreachable`. -/
theorem mem_unreachableInFunc_kind (name : String) (body : List Stmt) (b : Bool)
    (i : Issue) (hi : i ∈ unreachableInFunc name body b) : i.kind = "unreachable" := by
  induction body generalizing b with
  | nil => cases hi
  | cons n rest ih =>
      unfold unreachableInFunc at hi
      split at hi
      · exact ih _ hi
      · split at hi
        · rw [List.mem_singleton.mp hi]
        · exact ih _ hi

/-- Every issue of rule 1 has kind `unreachable`. -/
theorem unreachableIssues_kind (tree : List Stmt) :
    ∀ i ∈ unreachableIssues tree, i.kind = "unreachable" := by
  intro i hi
  obtain ⟨n, _, hin⟩ := List.mem_flatMap.mp hi
  unfold unreachableNodeIssues at hin
  split at hin
  · split at hin
    · exact mem_unreachableInFunc_kind _ _ _ i hin
    · cases hin
  · cases hin

/-- Every issue of rule 3 has kind `bare_except`. -/
theorem bareExceptIssues_kind (tree : List Stmt) :
    ∀ i ∈ bareExceptIssues tree, i.kind = "bare_except" := by
  intro i hi
  obtain ⟨n, _, hin⟩ := List.mem_flatMap.mp hi
  unfold bareExceptNodeIssues at hin
  split at hin
  · rw [List.mem_singleton.mp hin]
  · cases hin

/-- Every issue of rule 4 has kind `dangerous_call`. -/
theorem dangerousIssues_kind (tree : List Stmt) :
    ∀ i ∈ dangerousIssues tree, i.kind = "dangerous_call" := by
  intro i hi
  obtain ⟨n, _, hin⟩ := List.mem_flatMap.mp hi
  unfold dangerousNodeIssues at hin
  split at hin
  · split at hin
    · split at hin
      · rw [List.mem_singleton.mp hin]
      · cases hin
    · cases hin
  · cases hin

/-- Every issue of rule 5 has kind `mutable_default`. -/
theorem mutableDefaultIssues_kind (tree : List Stmt) :
    ∀ i ∈ mutableDefaultIssues tree, i.kind = "mutable_default" := by
  have slot : ∀ (name : String) (lineno : Nat) (o : Option Expr) (i : Issue),
      i ∈ mutableDefaultSlotIssues name lineno o → i.kind = "mutable_default" := by
    intro name lineno o i hio
    unfold mutableDefaultSlotIssues at hio
    split at hio
    · split at hio
      · rw [List.mem_singleton.mp hio]
      · cases hio
    · cases hio
  intro i hi
  obtain ⟨n, _, hin⟩ := List.mem_flatMap.mp hi
  unfold mutableDefaultNodeIssues at hin
  split at hin
  · obtain ⟨o, _, hio⟩ := List.mem_flatMap.mp hin
    exact slot _ _ _ i hio
  · obtain ⟨o, _, hio⟩ := List.mem_flatMap.mp hin
    exact slot _ _ _ i hio
  · cases hin

/-- Every issue rule 6's fold appends beyond the starting accumulator has
kind `high_complexity`. -/
theorem foldl_complexityStep_kind (nodes : List Node)
    (acc : List Issue × List (String × Nat)) :
    ∀ i ∈ (nodes.foldl complexityStep acc).1, i ∈ acc.1 ∨ i.kind = "high_complexity" := by
  induction nodes generalizing acc with
  | nil => exact fun i hi => .inl hi
  | cons n l ih =>
      intro i hi
      rw [List.foldl_cons] at hi
      rcases ih _ i hi with hstep | hk
      · unfold complexityStep at hstep
        split at hstep
        · split at hstep
          · dsimp only at hstep
            split at hstep
            · rcases List.mem_append.mp hstep with h | h
              · exact .inl h
              · exact .inr (by rw [List.mem_singleton.mp h])
            · exact .inl hstep
          · exact .inl hstep
        · exact .inl hstep
      · exact .inr hk

/-- Chaining the visitor's append-only issue growth across two visiting
steps. -/
theorem issue_prop_trans {xs ys zs : List Issue}
    (h1 : ∀ i ∈ ys, i ∈ xs ∨ i.kind = "undefined_var")
    (h2 : ∀ i ∈ zs, i ∈ ys ∨ i.kind = "undefined_var") :
    ∀ i ∈ zs, i ∈ xs ∨ i.kind = "undefined_var" :=
  fun i hi => (h2 i hi).elim (fun h => h1 i h) Or.inr

mutual
/-- Visiting a statement only appends `undefined_var` issues. -/
theorem uvStmt_issues_mono (st : UVState) (s : Stmt) :
    ∀ i ∈ (uvStmt st s).issues, i ∈ st.issues ∨ i.kind = "undefined_var" := by
  cases s with
  | functionDef name d kd body l =>
      exact issue_prop_trans
        (issue_prop_trans (uvExprList_issues_mono st d) (uvOptExprList_issues_mono _ kd))
        (uvStmtList_issues_mono _ body)
  | asyncFunctionDef name d kd body l =>
      exact issue_prop_trans
        (issue_prop_trans (uvExprList_issues_mono st d) (uvOptExprList_issues_mono _ kd))
        (uvStmtList_issues_mono _ body)
  | ret value l => exact uvOptExpr_issues_mono st value
  | assign targets value l =>
      refine issue_prop_trans (issue_prop_trans ?_ (uvExprList_issues_mono _ targets))
        (uvExpr_issues_mono _ value)
      exact fun i hi => .inl hi
  | exprStmt value l => exact uvExpr_issues_mono st value
  | ifStmt test body orelse l =>
      exact issue_prop_trans
        (issue_prop_trans (uvExpr_issues_mono st test) (uvStmtList_issues_mono _ body))
        (uvStmtList_issues_mono _ orelse)
  | whileStmt test body orelse l =>
      exact issue_prop_trans
        (issue_prop_trans (uvExpr_issues_mono st test) (uvStmtList_issues_mono _ body))
        (uvStmtList_issues_mono _ orelse)
  | forStmt target iter body orelse l =>
      exact issue_prop_trans
        (issue_prop_trans
          (issue_prop_trans (uvExpr_issues_mono st target) (uvExpr_issues_mono _ iter))
          (uvStmtList_issues_mono _ body))
        (uvStmtList_issues_mono _ orelse)
  | withStmt items body l =>
      exact issue_prop_trans (uvExprList_issues_mono st items)
        (uvStmtList_issues_mono _ body)
  | tryStmt body handlers orelse finalbody l =>
      exact issue_prop_trans
        (issue_prop_trans
          (issue_prop_trans (uvStmtList_issues_mono st body)
            (uvHandlerList_issues_mono _ handlers))
          (uvStmtList_issues_mono _ orelse))
        (uvStmtList_issues_mono _ finalbody)
  | assertStmt test l => exact uvExpr_issues_mono st test
  | importStmt names l => exact fun i hi => .inl hi
  | importFrom m names l => exact fun i hi => .inl hi
  | passStmt l => exact fun i hi => .inl hi

/-- Visiting a statement list only appends `undefined_var` issues. -/
theorem uvStmtList_issues_mono (st : UVState) (ss : List Stmt) :
    ∀ i ∈ (uvStmtList st ss).issues, i ∈ st.issues ∨ i.kind = "undefined_var" := by
  cases ss with
  | nil => exact fun i hi => .inl hi
  | cons s rest =>
      exact issue_prop_trans (uvStmt_issues_mono st s) (uvStmtList_issues_mono _ rest)

/-- Visiting an expression only appends `undefined_var` issues. -/
theorem uvExpr_issues_mono (st : UVState) (e : Expr) :
    ∀ i ∈ (uvExpr st e).issues, i ∈ st.issues ∨ i.kind = "undefined_var" := by
  cases e with
  | name id ctx lineno =>
      cases ctx with
      | load =>
          intro i hi
          unfold uvExpr at hi
          rw [apply_ite UVState.issues] at hi
          split at hi
          · exact .inl hi
          · rcases List.mem_append.mp hi with h | h
            · exact .inl h
            · exact .inr (by rw [List.mem_singleton.mp h])
      | store => exact fun i hi => .inl hi
      | del => exact fun i hi => .inl hi
  | constant => exact fun i hi => .inl hi
  | boolOp values => exact uvExprList_issues_mono st values
  | call func args l =>
      exact issue_prop_trans (uvExpr_issues_mono st func) (uvExprList_issues_mono _ args)
  | attrAccess value attr ctx => exact uvExpr_issues_mono st value
  | listLit elts => exact uvExprList_issues_mono st elts
  | dictLit => exact fun i hi => .inl hi
  | setLit elts => exact uvExprList_issues_mono st elts
  | listComp elt gens =>
      exact issue_prop_trans (uvExpr_issues_mono st elt) (uvCompList_issues_mono _ gens)

/-- Visiting an expression list only appends `undefined_var` issues. -/
theorem uvExprList_issues_mono (st : UVState) (es : List Expr) :
    ∀ i ∈ (uvExprList st es).issues, i ∈ st.issues ∨ i.kind = "undefined_var" := by
  cases es with
  | nil => exact fun i hi => .inl hi
  | cons e rest =>
      exact issue_prop_trans (uvExpr_issues_mono st e) (uvExprList_issues_mono _ rest)

/-- Visiting an optional expression only appends `undefined_var` issues. -/
theorem uvOptExpr_issues_mono (st : UVState) (o : Option Expr) :
    ∀ i ∈ (uvOptExpr st o).issues, i ∈ st.issues ∨ i.kind = "undefined_var" := by
  cases o with
  | none => exact fun i hi => .inl hi
  | some e => exact uvExpr_issues_mono st e

/-- Visiting a list of optional expressions only appends `undefined_var`
issues. -/
theorem uvOptExprList_issues_mono (st : UVState) (os : List (Option Expr)) :
    ∀ i ∈ (uvOptExprList st os).issues, i ∈ st.issues ∨ i.kind = "undefined_var" := by
  cases os with
  | nil => exact fun i hi => .inl hi
  | cons o rest =>
      exact issue_prop_trans (uvOptExpr_issues_mono st o) (uvOptExprList_issues_mono _ rest)

/-- Visiting a comprehension clause only appends `undefined_var`
issues. -/
theorem uvComp_issues_mono (st : UVState) (c : Comprehension) :
    ∀ i ∈ (uvComp st c).issues, i ∈ st.issues ∨ i.kind = "undefined_var" := by
  cases c with
  | mk target iter ifs =>
      exact issue_prop_trans
        (issue_prop_trans (uvExpr_issues_mono st target) (uvExpr_issues_mono _ iter))
        (uvExprList_issues_mono _ ifs)

/-- Visiting a list of comprehension clauses only appends `undefined_var`
issues. -/
theorem uvCompList_issues_mono (st : UVState) (cs : List Comprehension) :
    ∀ i ∈ (uvCompList st cs).issues, i ∈ st.issues ∨ i.kind = "undefined_var" := by
  cases cs with
  | nil => exact fun i hi => .inl hi
  | cons c rest =>
      exact issue_prop_trans (uvComp_issues_mono st c) (uvCompList_issues_mono _ rest)

/-- Visiting a handler only appends `undefined_var` issues. -/
theorem uvHandler_issues_mono (st : UVState) (h : Handler) :
    ∀ i ∈ (uvHandler st h).issues, i ∈ st.issues ∨ i.kind = "undefined_var" := by
  cases h with
  | mk type body l =>
      exact issue_prop_trans (uvOptExpr_issues_mono st type) (uvStmtList_issues_mono _ body)

/-- Visiting a handler list only appends `undefined_var` issues. -/
theorem uvHandlerList_issues_mono (st : UVState) (hs : List Handler) :
    ∀ i ∈ (uvHandlerList st hs).issues, i ∈ st.issues ∨ i.kind = "undefined_var" := by
  cases hs with
  | nil => exact fun i hi => .inl hi
  | cons h rest =>
      exact issue_prop_trans (uvHandler_issues_mono st h) (uvHandlerList_issues_mono _ rest)
end

/-- Every issue of rule 7 has kind `undefined_var`. -/
theorem undefinedVarIssues_kind (tree : List Stmt) :
    ∀ i ∈ undefinedVarIssues tree, i.kind = "undefined_var" := by
  intro i hi
  rcases uvStmtList_issues_mono ⟨[], []⟩ tree i hi with h | h
  · cases h
  · exact h

/-- A rule whose issues all carry some other kind contributes nothing to
the count of `unused_import` flags for a name. -/
theorem countP_unused_zero_of_kind {l : List Issue} {k : String}
    (hk : ∀ i ∈ l, i.kind = k) (hne : (k == "unused_import") = false)
    (nm : String) :
    l.countP (fun i => i.kind == "unused_import" && i.message == unusedMsg nm) = 0 := by
  apply List.countP_eq_zero.mpr
  intro i hi
  rw [hk i hi, hne]
  simp

/-- Counting ones over the matches of a predicate. -/
theorem sum_map_ite_one {α : Type} (l : List α) (p : α → Bool) :
    (l.map fun a => if p a then 1 else 0).sum = l.countP p := by
  induction l with
  | nil => rfl
  | cons a t ih =>
      by_cases hp : p a = true <;>
        simp [List.countP_cons, hp, ih, Nat.add_comm]

/-- What one plain-import alias contributes to the `unused_import` count
for a name: one flag exactly when it binds that name and the name has no
load-context use. -/
theorem importAliasIssues_count (tree : List Stmt) (lineno : Nat)
    (a : ImportAlias) (nm : String) :
    (importAliasIssues tree lineno a).countP
        (fun i => i.kind == "unused_import" && i.message == unusedMsg nm) =
      if _is_used_in_tree nm tree then 0
      else if a.effName == nm then 1 else 0 := by
  unfold importAliasIssues
  by_cases he : (a.effName == nm) = true
  · rw [eq_of_beq he]
    by_cases hu : _is_used_in_tree nm tree <;> simp [hu, List.countP_cons, unusedMsg_beq]
  · have he' : (a.effName == nm) = false := by simpa using he
    by_cases hu2 : _is_used_in_tree a.effName tree <;>
      by_cases hu : _is_used_in_tree nm tree <;>
        simp [hu2, hu, he', List.countP_cons, unusedMsg_beq]

/-- What one `from`-import alias contributes: as above, with the wildcard
alias contributing nothing. -/
theorem importFromAliasIssues_count (tree : List Stmt) (lineno : Nat)
    (a : ImportAlias) (nm : String) :
    (importFromAliasIssues tree lineno a).countP
        (fun i => i.kind == "unused_import" && i.message == unusedMsg nm) =
      if _is_used_in_tree nm tree then 0
      else if a.name != "*" && a.effName == nm then 1 else 0 := by
  unfold importFromAliasIssues
  by_cases hw : (a.name == "*") = true
  · by_cases hu : _is_used_in_tree nm tree <;> simp [hw, hu, eq_of_beq hw]
  · have hw' : ¬ a.name = "*" := fun h => hw (by simp [h])
    rw [if_neg (by simpa using hw'), importAliasIssues_count]
    by_cases hu : _is_used_in_tree nm tree <;> simp [hw', hu]

/-- What one walked node contributes to the `unused_import` count for a
name: its alias occurrences binding the name, when the name is unused. -/
theorem importNodeIssues_count (tree : List Stmt) (n : Node) (nm : String) :
    (importNodeIssues tree n).countP
        (fun i => i.kind == "unused_import" && i.message == unusedMsg nm) =
      if _is_used_in_tree nm tree then 0 else importNodeOccurrences nm n := by
  by_cases hu : _is_used_in_tree nm tree = true
  · rw [if_pos hu]
    unfold importNodeIssues
    split
    · rw [countP_flatMap]
      apply List.sum_eq_zero
      intro x hx
      obtain ⟨a, _, rfl⟩ := List.mem_map.mp hx
      rw [importAliasIssues_count, if_pos hu]
    · rw [countP_flatMap]
      apply List.sum_eq_zero
      intro x hx
      obtain ⟨a, _, rfl⟩ := List.mem_map.mp hx
      rw [importFromAliasIssues_count, if_pos hu]
    · rfl
  · rw [if_neg hu]
    rcases n with s | e | h | c
    · cases s <;> try rfl
      · next names lineno =>
          show (names.flatMap (importAliasIssues tree lineno)).countP _ = _
          have hm : (names.map fun a => (importAliasIssues tree lineno a).countP
                fun i => i.kind == "unused_import" && i.message == unusedMsg nm) =
              names.map fun a => if a.effName == nm then 1 else 0 :=
            List.map_congr_left fun a _ => by
              rw [importAliasIssues_count, if_neg hu]
          rw [countP_flatMap, hm, sum_map_ite_one]
          rfl
      · next m names lineno =>
          show (names.flatMap (importFromAliasIssues tree lineno)).countP _ = _
          have hm : (names.map fun a => (importFromAliasIssues tree lineno a).countP
                fun i => i.kind == "unused_import" && i.message == unusedMsg nm) =
              names.map fun a => if a.name != "*" && a.effName == nm then 1 else 0 :=
            List.map_congr_left fun a _ => by
              rw [importFromAliasIssues_count, if_neg hu]
          rw [countP_flatMap, hm, sum_map_ite_one]
          rfl
    · rfl
    · rfl
    · rfl

/-- Rule 2's total `unused_import` count for a name over the whole walk:
zero when the name has a load-context use anywhere, otherwise one flag per
import-alias occurrence binding the name. -/
theorem importIssues_count (tree : List Stmt) (nm : String) :
    (importIssues tree).countP
        (fun i => i.kind == "unused_import" && i.message == unusedMsg nm) =
      if _is_used_in_tree nm tree then 0 else importOccurrences nm tree := by
  unfold importIssues
  rw [countP_flatMap]
  by_cases hu : _is_used_in_tree nm tree = true
  · rw [if_pos hu]
    apply List.sum_eq_zero
    intro x hx
    obtain ⟨n, _, rfl⟩ := List.mem_map.mp hx
    rw [importNodeIssues_count, if_pos hu]
  · rw [if_neg hu]
    unfold importOccurrences
    congr 1
    exact List.map_congr_left fun n _ => by rw [importNodeIssues_count, if_neg hu]

/-- Issues of rule 6 all have kind `high_complexity` (the fold starts from
the empty list). -/
theorem complexityPass_kind (tree : List Stmt) :
    ∀ i ∈ (complexityPass tree).1, i.kind = "high_complexity" := by
  intro i hi
  rcases foldl_complexityStep_kind (treeWalk tree) ([], []) i hi with h | h
  · cases h
  · exact h

/-- The full scan's `unused_import` count for a name: only rule 2
contributes, so the count is zero when the name has a load-context use
anywhere in the tree and otherwise equals the number of import-alias
occurrences binding the name. -/
theorem scanTree_unusedImport_count (tree : List Stmt) (nm : String) :
    (scanTree tree).issues.countP
        (fun i => i.kind == "unused_import" && i.message == unusedMsg nm) =
      if _is_used_in_tree nm tree then 0 else importOccurrences nm tree := by
  show (unreachableIssues tree ++ importIssues tree ++ bareExceptIssues tree ++
      dangerousIssues tree ++ mutableDefaultIssues tree ++ (complexityPass tree).1 ++
      undefinedVarIssues tree).countP _ = _
  simp only [List.countP_append]
  rw [countP_unused_zero_of_kind (unreachableIssues_kind tree) rfl,
    countP_unused_zero_of_kind (bareExceptIssues_kind tree) rfl,
    countP_unused_zero_of_kind (dangerousIssues_kind tree) rfl,
    countP_unused_zero_of_kind (mutableDefaultIssues_kind tree) rfl,
    countP_unused_zero_of_kind (complexityPass_kind tree) rfl,
    countP_unused_zero_of_kind (undefinedVarIssues_kind tree) rfl,
    importIssues_count]
  omega

/-- C6, counterexample: the same name imported twice with no reference is
flagged twice, not exactly once — `import os` on two lines yields two
`unused_import` issues for `os`. -/
theorem unused_import_double_flag :
    _is_used_in_tree "os"
      [.importStmt [⟨"os", none⟩] 1, .importStmt [⟨"os", none⟩] 2] = false ∧
    (scanTree [.importStmt [⟨"os", none⟩] 1,
        .importStmt [⟨"os", none⟩] 2]).issues.countP
      (fun i => i.kind == "unused_import" && i.message == unusedMsg "os") = 2 :=
  ⟨rfl, rfl⟩

/-- C6, amended: for every tree and name, `scan` emits one `unused_import`
flag per import-alias occurrence binding that name when the name has no
load-context reference anywhere in the tree (so a name imported exactly
once is flagged exactly once, and one imported k times is flagged k
times), and no flag at all when the name is referenced anywhere — even if
only inside a nested function. -/
theorem unused_import_flag_per_occurrence (tree : List Stmt) (nm : String) :
    (scanTree tree).issues.countP
        (fun i => i.kind == "unused_import" && i.message == unusedMsg nm) =
      if _is_used_in_tree nm tree then 0 else importOccurrences nm tree :=
  scanTree_unusedImport_count tree nm

/-- C10: a plain dotted import with no alias records a dotted name, and a
`Name` node's id never contains a dot, so the recorded name can never
match a load-context reference: the import is always flagged
`unused_import`, even when the module is referenced through attribute
access elsewhere. -/
theorem dotted_import_always_flagged (tree : List Stmt) (nm : String)
    (names : List ImportAlias) (lineno : Nat)
    (hdot : nm.data.contains '.' = true)
    (hwf : noDottedNames tree = true)
    (hmem : Node.stmt (.importStmt names lineno) ∈ treeWalk tree)
    (halias : ImportAlias.mk nm none ∈ names) :
    _is_used_in_tree nm tree = false ∧
    0 < (scanTree tree).issues.countP
        (fun i => i.kind == "unused_import" && i.message == unusedMsg nm) := by
  have hused : _is_used_in_tree nm tree = false := by
    apply List.any_eq_false.mpr
    intro n hn hp
    have h0 := List.all_eq_true.mp hwf _ hn
    rcases n with s | e | hh | c
    · exact absurd hp (by simp [isLoadOf])
    · rcases e with ⟨id, ctx, l⟩ | ⟨⟩ | ⟨values⟩ | ⟨f0, args, l⟩ | ⟨v, at0, c0⟩ |
        ⟨elts⟩ | ⟨⟩ | ⟨elts⟩ | ⟨elt, gens⟩
      · have hp' : (id == nm && isLoadCtx ctx) = true := hp
        have hall : (!id.data.contains '.') = true := h0
        rw [Bool.and_eq_true] at hp'
        rw [eq_of_beq hp'.1, hdot] at hall
        exact absurd hall (by decide)
      all_goals exact absurd hp (by simp [isLoadOf])
    · exact absurd hp (by simp [isLoadOf])
    · exact absurd hp (by simp [isLoadOf])
  refine ⟨hused, ?_⟩
  rw [scanTree_unusedImport_count, hused, if_neg (by simp)]
  have hocc : 0 < importNodeOccurrences nm (Node.stmt (.importStmt names lineno)) := by
    unfold importNodeOccurrences
    refine List.countP_pos_iff.mpr ⟨⟨nm, none⟩, halias, ?_⟩
    simp [ImportAlias.effName]
  exact lt_of_lt_of_le hocc
    (List.single_le_sum (fun x _ => Nat.zero_le x) _
      (List.mem_map_of_mem _ hmem))

/-- C10, witness: `import a.b` followed by the attribute access `a.b.c`
still flags `a.b` as unused. -/
theorem dotted_import_always_flagged_witness :
    _is_used_in_tree "a.b"
      [.importStmt [⟨"a.b", none⟩] 1,
       .exprStmt (.attrAccess (.attrAccess (.name "a" .load 2) "b" .load) "c" .load) 2] = false ∧
    0 < (scanTree
        [.importStmt [⟨"a.b", none⟩] 1,
         .exprStmt (.attrAccess (.attrAccess (.name "a" .load 2) "b" .load) "c" .load) 2]).issues.countP
      (fun i => i.kind == "unused_import" && i.message == unusedMsg "a.b") :=
  dotted_import_always_flagged
    [.importStmt [⟨"a.b", none⟩] 1,
     .exprStmt (.attrAccess (.attrAccess (.name "a" .load 2) "b" .load) "c" .load) 2]
    "a.b" [⟨"a.b", none⟩] 1 rfl rfl (List.mem_cons_self _ _)
    (List.mem_singleton.mpr rfl)

end Codefix
